import Mathlib

/-!
Verification of the mindmeld embedding-cache and role-classifier components.

Part 1 embeds `src/mindmeld/models/embedder_models.py` (class `Embedder`):
the in-memory text→vector cache, `get_encodings`, `clear_cache`, `dump`,
and the cache-loading branch of `__init__`.

Part 2 embeds `src/mmworkbench/components/role_classifier.py`
(class `RoleClassifier`): `fit`, `dump`, `load`, `predict`,
`_get_queries_and_labels` and `_get_queries_and_labels_hash`.

Modelling conventions: embedding vectors are opaque values (`List Int`);
the Python dict `self.cache` is an association list observed only through
lookup; the injected encode strategy is a deterministic per-text function
`enc : String → Vec`, a batch encode being its map over the batch; every
batch handed to `encode` is recorded in a `calls` trace so that claims
about "encode invocations" are statable.
-/

/-! ## Part 1: the Embedder (src/mindmeld/models/embedder_models.py) -/

abbrev Vec := List Int

abbrev Cache := List (String × Vec)

/-- Python `self.cache.get(text, None)` (dict lookup). -/
def cacheGet (c : Cache) (t : String) : Option Vec :=
  c.lookup t

/-- Python `d[k] = v` (dict write): the cache is observed only through
`cacheGet`, for which prepending the new binding is exactly overwrite. -/
def alistPut {β : Type} (l : List (String × β)) (k : String) (v : β) :
    List (String × β) :=
  (k, v) :: l

/-- Python `l[i]` on a list, total with a default (all uses are in range). -/
def nth {α : Type} (l : List α) (i : Nat) (d : α) : α :=
  (l[i]?).getD d

/-- Line 90: `encoded = [self.cache.get(text, None) for text in text_list]`. -/
def encodedOf (c : Cache) (ts : List String) : List (Option Vec) :=
  ts.map (fun t => cacheGet c t)

/-- Line 91: `cache_miss_indices = [i for i, vec in enumerate(encoded) if vec is None]`. -/
def cacheMissIndices (c : Cache) (ts : List String) : List Nat :=
  (List.range ts.length).filter (fun i => (nth (encodedOf c ts) i none).isNone)

/-- Line 92: `text_to_encode = [text_list[i] for i in cache_miss_indices]`. -/
def textToEncode (c : Cache) (ts : List String) : List String :=
  (cacheMissIndices c ts).map (fun i => nth ts i "")

/-- The injected strategy's `encode(text_list)`: one vector per text. -/
def encodeBatch (enc : String → Vec) (ts : List String) : List Vec :=
  ts.map enc

/-- The texts of `ts` missing from cache `c`, in their original relative order. -/
def missTexts (c : Cache) (ts : List String) : List String :=
  ts.filter (fun t => (cacheGet c t).isNone)

structure EncResult where
  result : List (Option Vec)
  cache : Cache
  calls : List (List String)
  deriving DecidableEq

/-- `Embedder.get_encodings` (lines 82-98). Line 93 invokes `encode` once,
unconditionally, on `text_to_encode`; the write-back loop of lines 95-97
pairs each miss index with its encoded vector (`enumerate`), overwrites the
`None` slot and stores the vector under its source text. `calls` records
every batch handed to `encode`. -/
def getEncodings (enc : String → Vec) (c : Cache) (ts : List String) : EncResult :=
  let modelEncodedText := encodeBatch enc (textToEncode c ts)
  { result := ((cacheMissIndices c ts).zip modelEncodedText).foldl
      (fun acc p => acc.set p.1 (some p.2)) (encodedOf c ts)
    cache := ((cacheMissIndices c ts).zip modelEncodedText).foldl
      (fun acc p => alistPut acc (nth ts p.1 "") p.2) c
    calls := [textToEncode c ts] }

/-- The embedder's state: the in-memory cache and the backing file's
content (`none` when no file exists at `self.cache_path`). -/
structure EmbState where
  mem : Cache
  file : Option Cache
  deriving DecidableEq

/-- `Embedder.clear_cache` (lines 76-80): removes the backing file if
present; nothing else is touched. -/
def clear_cache (s : EmbState) : EmbState :=
  { s with file := none }

/-- `Embedder.dump` (lines 100-104): writes the in-memory cache to the file. -/
def embDump (s : EmbState) : EmbState :=
  { s with file := some s.mem }

/-- `Embedder.get_encodings` acting on the full embedder state: the backing
file is not consulted or written. Returns (vectors, new state, encode calls). -/
def embGetEncodings (enc : String → Vec) (s : EmbState) (ts : List String) :
    List (Option Vec) × EmbState × List (List String) :=
  let r := getEncodings enc s.mem ts
  (r.result, { s with mem := r.cache }, r.calls)

/-- The backing file as `__init__` (lines 47-51) can observe it: absent, or
present with a byte size and the outcome of `pickle.load` on its bytes
(`none` when the bytes do not deserialize). -/
inductive CacheFile where
  | absent : CacheFile
  | present (size : Nat) (content : Option Cache) : CacheFile
  deriving DecidableEq

/-- The cache-loading branch of `Embedder.__init__` (lines 47-51): a missing
or zero-size file yields the empty cache without any read; otherwise
`pickle.load` runs and its failure propagates (modelled as `Except.error`). -/
def initCache : CacheFile → Except String Cache
  | .absent => .ok []
  | .present size content =>
    if size = 0 then .ok []
    else
      match content with
      | some c => .ok c
      | none => .error "UnpicklingError"

/-! ### Helper lemmas about the cache and index plumbing -/

theorem nth_map_of_lt {α β : Type} (f : α → β) (l : List α) (i : Nat)
    (h : i < l.length) (d : α) (d' : β) :
    nth (l.map f) i d' = f (nth l i d) := by
  simp [nth, List.getElem?_map, List.getElem?_eq_getElem h]

theorem lookup_alistPut {β : Type} (l : List (String × β)) (k t : String) (v : β) :
    (alistPut l k v).lookup t = if k = t then some v else l.lookup t := by
  rw [alistPut, List.lookup_cons]
  by_cases h : k = t
  · subst h; simp
  · have hbeq : (t == k) = false := by
      rw [beq_eq_false_iff_ne]
      exact fun ht => h ht.symm
    simp [hbeq, h]

theorem cacheGet_alistPut (c : Cache) (k t : String) (v : Vec) :
    cacheGet (alistPut c k v) t = if k = t then some v else cacheGet c t := by
  simp [cacheGet, lookup_alistPut]

/-- Indexing after a fold that writes `g v` at each index `v` of `l`. -/
theorem getElem?_foldl_set {β : Type} (g : Nat → β) :
    ∀ (l : List Nat) (init : List β) (j : Nat),
      (l.foldl (fun acc v => acc.set v (g v)) init)[j]? =
        if j ∈ l ∧ j < init.length then some (g j) else init[j]?
  | [], init, j => by simp
  | x :: xs, init, j => by
    rw [List.foldl_cons, getElem?_foldl_set g xs]
    rw [List.length_set]
    by_cases hmem : j ∈ xs ∧ j < init.length
    · simp only [if_pos hmem]
      have : j ∈ x :: xs ∧ j < init.length := ⟨List.mem_cons_of_mem _ hmem.1, hmem.2⟩
      simp [this]
    · rw [if_neg hmem, List.getElem?_set]
      by_cases hx : x = j
      · subst hx
        by_cases hlen : x < init.length
        · simp [hlen, List.mem_cons_self]
        · simp only [if_pos rfl, if_neg hlen]
          have hnot : ¬(x ∈ x :: xs ∧ x < init.length) := fun hc => hlen hc.2
          rw [if_neg hnot]
          exact (List.getElem?_eq_none (Nat.le_of_not_lt hlen)).symm
      · simp only [if_neg hx]
        have : ¬(j ∈ x :: xs ∧ j < init.length) := by
          rintro ⟨hj, hlt⟩
          rcases List.mem_cons.mp hj with h | h
          · exact hx h.symm
          · exact hmem ⟨h, hlt⟩
        rw [if_neg this]

/-- Cache lookup after a fold that stores `enc (k v)` under key `k v` for
each `v` of `l`. -/
theorem cacheGet_foldl_put (enc : String → Vec) (k : Nat → String) :
    ∀ (l : List Nat) (c : Cache) (t : String),
      cacheGet (l.foldl (fun acc v => alistPut acc (k v) (enc (k v))) c) t =
        if t ∈ l.map k then some (enc t) else cacheGet c t
  | [], c, t => by simp
  | x :: xs, c, t => by
    rw [List.foldl_cons, cacheGet_foldl_put enc k xs]
    by_cases hmem : t ∈ xs.map k
    · have : t ∈ (x :: xs).map k := by
        simp only [List.map_cons, List.mem_cons]; exact Or.inr hmem
      simp [hmem, this]
    · rw [if_neg hmem, cacheGet_alistPut]
      by_cases hx : k x = t
      · subst hx
        simp
      · have hnot : ¬ t ∈ (x :: xs).map k := by
          simp only [List.map_cons, List.mem_cons]
          rintro (h | h)
          · exact hx h.symm
          · exact hmem h
        rw [if_neg hx, if_neg hnot]

theorem zip_map_self {α β : Type} (f : α → β) :
    ∀ l : List α, l.zip (l.map f) = l.map (fun x => (x, f x))
  | [] => rfl
  | a :: l => by simp [zip_map_self f l]

/-- Reading every index of `ts` back through `nth` recovers `ts`. -/
theorem map_nth_range {α : Type} (d : α) :
    ∀ ts : List α, (List.range ts.length).map (fun i => nth ts i d) = ts
  | [] => rfl
  | a :: ts => by
    rw [List.length_cons, List.range_succ_eq_map, List.map_cons, List.map_map]
    have hM : ((fun i => nth (a :: ts) i d) ∘ Nat.succ) = (fun i => nth ts i d) := by
      funext i; simp [nth, Function.comp]
    rw [hM, map_nth_range d ts]
    show nth (a :: ts) 0 d :: ts = a :: ts
    rw [show nth (a :: ts) 0 d = a from by simp [nth]]

/-- Selecting the miss indices of `ts` and reading them back yields exactly
the filtered sublist, in original relative order. -/
theorem filter_range_map_nth {α : Type} (q : α → Bool) (d : α) (ts : List α) :
    ((List.range ts.length).filter (fun i => q (nth ts i d))).map
        (fun i => nth ts i d) =
      ts.filter q := by
  have h1 := List.filter_map (p := q) (f := fun i => nth ts i d)
    (l := List.range ts.length)
  rw [map_nth_range d ts] at h1
  rw [show (fun i => q (nth ts i d)) = (q ∘ fun i => nth ts i d) by rfl]
  rw [← h1]

/-! ### Master characterization of `get_encodings` -/

/-- The single batch handed to `encode` is exactly the cache-missing texts,
in original relative order. -/
theorem textToEncode_eq (c : Cache) (ts : List String) :
    textToEncode c ts = missTexts c ts := by
  rw [textToEncode, cacheMissIndices, missTexts]
  have hpred : ∀ i ∈ List.range ts.length,
      ((nth (encodedOf c ts) i none).isNone) =
        ((cacheGet c (nth ts i "")).isNone) := by
    intro i hi
    rw [List.mem_range] at hi
    simp only [encodedOf]
    rw [nth_map_of_lt (fun t => cacheGet c t) ts i hi "" none]
  rw [List.filter_congr hpred]
  exact filter_range_map_nth (fun t => (cacheGet c t).isNone) "" ts

theorem mem_cacheMissIndices (c : Cache) (ts : List String) (i : Nat) :
    i ∈ cacheMissIndices c ts ↔ i < ts.length ∧ cacheGet c (nth ts i "") = none := by
  rw [cacheMissIndices, List.mem_filter, List.mem_range]
  refine and_congr_right fun hi => ?_
  simp only [encodedOf]
  rw [nth_map_of_lt (fun t => cacheGet c t) ts i hi "" none]
  exact Option.isNone_iff_eq_none

theorem getEncodings_result_foldl (enc : String → Vec) (c : Cache) (ts : List String) :
    (getEncodings enc c ts).result =
      (cacheMissIndices c ts).foldl
        (fun acc v => acc.set v (some (enc (nth ts v "")))) (encodedOf c ts) := by
  simp only [getEncodings, encodeBatch, textToEncode, List.map_map, zip_map_self,
    List.foldl_map, Function.comp]

theorem getEncodings_cache_foldl (enc : String → Vec) (c : Cache) (ts : List String) :
    (getEncodings enc c ts).cache =
      (cacheMissIndices c ts).foldl
        (fun acc v => alistPut acc (nth ts v "") (enc (nth ts v ""))) c := by
  simp only [getEncodings, encodeBatch, textToEncode, List.map_map, zip_map_self,
    List.foldl_map, Function.comp]

/-- `encode` is invoked exactly once per `get_encodings` call, on the misses. -/
theorem getEncodings_calls (enc : String → Vec) (c : Cache) (ts : List String) :
    (getEncodings enc c ts).calls = [missTexts c ts] := by
  simp only [getEncodings]
  rw [textToEncode_eq]

/-- The returned list: per input position, the cached vector on a hit and the
freshly encoded vector on a miss. -/
theorem getEncodings_result (enc : String → Vec) (c : Cache) (ts : List String) :
    (getEncodings enc c ts).result =
      ts.map (fun t => some ((cacheGet c t).getD (enc t))) := by
  rw [getEncodings_result_foldl]
  apply List.ext_getElem?
  intro j
  have hset := getElem?_foldl_set (fun v => some (enc (nth ts v "")))
    (cacheMissIndices c ts) (encodedOf c ts) j
  rw [hset, List.getElem?_map]
  by_cases hj : j < ts.length
  · have hget : ts[j]? = some ts[j] := List.getElem?_eq_getElem hj
    have hnth : nth ts j "" = ts[j] := by rw [nth, hget]; rfl
    by_cases hmiss : cacheGet c ts[j] = none
    · have hmem : j ∈ cacheMissIndices c ts :=
        (mem_cacheMissIndices c ts j).mpr ⟨hj, by rw [hnth]; exact hmiss⟩
      have hlt : j < (encodedOf c ts).length := by
        simpa [encodedOf] using hj
      rw [if_pos ⟨hmem, hlt⟩, hget]
      simp [hnth, hmiss]
    · have hmem : ¬ j ∈ cacheMissIndices c ts := by
        rw [mem_cacheMissIndices]
        rintro ⟨_, hc⟩
        rw [hnth] at hc
        exact hmiss hc
      rw [if_neg (by rintro ⟨h1, _⟩; exact hmem h1)]
      obtain ⟨v, hv⟩ := Option.ne_none_iff_exists'.mp hmiss
      simp [encodedOf, List.getElem?_map, hget, hv]
  · have h1 : ts[j]? = none := List.getElem?_eq_none (Nat.le_of_not_lt hj)
    have hno : ¬ (j ∈ cacheMissIndices c ts ∧ j < (encodedOf c ts).length) := by
      rintro ⟨_, hlt⟩
      rw [encodedOf, List.length_map] at hlt
      exact hj hlt
    rw [if_neg hno]
    simp [encodedOf, List.getElem?_map, h1]

/-- Cache lookups after `get_encodings`: every miss of the call is now
cached under its freshly encoded vector; nothing else changed. -/
theorem getEncodings_cacheGet (enc : String → Vec) (c : Cache) (ts : List String)
    (t : String) :
    cacheGet (getEncodings enc c ts).cache t =
      if t ∈ missTexts c ts then some (enc t) else cacheGet c t := by
  have hmap : (cacheMissIndices c ts).map (fun v => nth ts v "") = missTexts c ts :=
    textToEncode_eq c ts
  have h := cacheGet_foldl_put enc (fun v => nth ts v "") (cacheMissIndices c ts) c t
  rw [hmap] at h
  rw [getEncodings_cache_foldl]
  exact h

/-- After a `get_encodings` call every requested text is a cache hit, holding
the vector the call returned for it. -/
theorem cacheGet_after_mem (enc : String → Vec) (c : Cache) (ts : List String)
    (t : String) (ht : t ∈ ts) :
    cacheGet (getEncodings enc c ts).cache t =
      some ((cacheGet c t).getD (enc t)) := by
  rw [getEncodings_cacheGet]
  by_cases h : cacheGet c t = none
  · have hmem : t ∈ missTexts c ts := by
      rw [missTexts, List.mem_filter]
      exact ⟨ht, by simp [h]⟩
    rw [if_pos hmem, h, Option.getD_none]
  · obtain ⟨v, hv⟩ := Option.ne_none_iff_exists'.mp h
    have hmem : ¬ t ∈ missTexts c ts := by
      rw [missTexts, List.mem_filter]
      rintro ⟨_, hp⟩
      simp [hv] at hp
    rw [if_neg hmem, hv, Option.getD_some]

/-! ## Part 2: the RoleClassifier (src/mmworkbench/components/role_classifier.py) -/

/-- A query entity as `_get_queries_and_labels` reads it: `entity.entity.type`
and `entity.entity.role` (Python `None` or a string; Python truthiness makes
both `None` and the empty string falsy). -/
structure Entity where
  type : String
  role : Option String
  deriving DecidableEq

/-- A ProcessedQuery as the classifier reads it: the underlying query
(represented by its raw text, line 230 `query.query`) and its entities. -/
structure PQuery where
  query : String
  entities : List Entity
  deriving DecidableEq

/-- Python truthiness of `entity.entity.role` (line 229). -/
def roleTruthy : Option String → Bool
  | none => false
  | some s => s != ""

abbrev RCExample := String × List Entity × Nat

/-- Lines 225-231: the eligible (example, label) pairs — entities whose type
matches the classifier's entity type and whose role is truthy, paired with
`(query.query, query.entities, idx)`. -/
def collectExamples (entityType : String) (qs : List PQuery) :
    List (RCExample × Option String) :=
  qs.flatMap (fun q =>
    q.entities.enum.filterMap (fun p =>
      if p.2.type == entityType && roleTruthy p.2.role then
        some ((q.query, q.entities, p.1), p.2.role)
      else none))

/-- `RoleClassifier._get_queries_and_labels` (lines 212-243) after the query
tree has been flattened: collect eligible examples and labels; if the label
set has exactly one distinct value return `((), ())`; if `None` is among the
labels log each offending example's query and raise `ValueError` (modelled
as `Except.error` carrying the logged query texts); otherwise return the
examples and labels. -/
def getQueriesAndLabels (entityType : String) (qs : List PQuery) :
    Except (List String) (List RCExample × List (Option String)) :=
  let pairs := collectExamples entityType qs
  let examples := pairs.map (fun p => p.1)
  let labels := pairs.map (fun p => p.2)
  if labels.dedup.length = 1 then .ok ([], [])
  else if none ∈ labels then
    .error (((examples.zip labels).filter (fun p => p.2.isNone)).map
      (fun p => p.1.1))
  else .ok (examples, labels)

/-- The opaque fitted statistical model: `model.fit(examples, labels)`
(line 101) yields a model determined by its training inputs. -/
structure Model where
  examples : List RCExample
  labels : List (Option String)
  deriving DecidableEq

/-- One persisted artifact, `rc_data = {'model': ..., 'roles': ...}`
(lines 122-123, read back at lines 140-142). -/
structure Artifact where
  model : Option Model
  roles : List (Option String)
  deriving DecidableEq

/-- The files the classifier touches: artifacts keyed by model path, and the
sibling fingerprint records keyed by `model_path + ".hash"`. -/
structure FS where
  artifacts : List (String × Artifact)
  hashes : List (String × String)
  deriving DecidableEq

/-- The classifier's mutable attributes used by fit/load/dump/predict.
`hash` starts unset (`none`); the loaded `config` is omitted — no claim
observes it. -/
structure RCState where
  roles : List (Option String)
  model : Option Model
  hash : Option String
  ready : Bool
  dirty : Bool
  deriving DecidableEq

/-- Modelled from the spec: `Classifier._load_hash` (base class, not under
src/) reads the sibling plain-text record at `<artifact-path>.hash` holding
exactly the fingerprint string, `none` when no record exists. -/
def load_hash (fs : FS) (p : String) : Option String :=
  fs.hashes.lookup (p ++ ".hash")

/-- `RoleClassifier.load` (lines 131-156): a missing/unreadable artifact is
logged and the method returns early with the state untouched; otherwise
model and roles are installed, and when the model is set the stored
fingerprint becomes the classifier's hash; `ready := true, dirty := false`. -/
def rcLoad (fs : FS) (st : RCState) (p : String) : RCState :=
  match fs.artifacts.lookup p with
  | none => st
  | some a =>
    let st1 := { st with model := a.model, roles := a.roles }
    let st2 := if a.model.isSome then { st1 with hash := load_hash fs p } else st1
    { st2 with ready := true, dirty := false }

/-- The state produced by a fresh fit that reached `model.fit` (lines
95-107): roles rebuilt from the labels, the fitted model installed, the new
fingerprint recorded, ready and dirty set. -/
def fitState (st : RCState) (new_hash : String) (examples : List RCExample)
    (labels : List (Option String)) : RCState :=
  { st with roles := labels.dedup
            model := some ⟨examples, labels⟩
            hash := some new_hash
            ready := true
            dirty := true }

/-- `RoleClassifier.fit` (lines 64-107). `new_hash` stands for
`self._get_model_hash(model_config, queries, label_set)` (base class, an
opaque deterministic digest — see `get_model_hash` below for the
queries-side digest that is in src/). With a previous model path whose
stored fingerprint equals `new_hash`, the previous model is loaded and fit
returns (lines 84-89); otherwise labelled data is extracted (an annotation
error propagates), `model.fit` runs only when `examples` is non-empty, and
`self.hash`, `self.ready`, `self.dirty` are set (lines 92-107). The
returned Bool reports whether `model.fit` was invoked. -/
def rcFit (new_hash : String) (fs : FS) (st : RCState) (entityType : String)
    (qs : List PQuery) (previousModelPath : Option String) :
    Except (List String) (RCState × Bool) :=
  let priorLoaded : Option RCState :=
    match previousModelPath with
    | some p =>
      if load_hash fs p = some new_hash then some (rcLoad fs st p) else none
    | none => none
  match priorLoaded with
  | some st' => .ok (st', false)
  | none =>
    match getQueriesAndLabels entityType qs with
    | .error e => .error e
    | .ok (examples, labels) =>
      if examples.isEmpty then
        .ok ({ st with hash := some new_hash, ready := true, dirty := true }, false)
      else
        .ok (fitState st new_hash examples labels, true)

/-- `RoleClassifier.dump` (lines 109-129): persists `{'model': self._model,
'roles': self.roles}` at `model_path` and writes `self.hash` to
`model_path + ".hash"`; `self.dirty = False`. (`self.hash` is always a set
string when dump is reached, fit or load having run; the `getD` default is
unreachable in those flows.) -/
def rcDump (st : RCState) (p : String) (fs : FS) : RCState × FS :=
  ({ st with dirty := false },
   { artifacts := alistPut fs.artifacts p ⟨st.model, st.roles⟩
     hashes := alistPut fs.hashes (p ++ ".hash") (st.hash.getD "") })

/-- `RoleClassifier.predict` (lines 158-176): with no model set, an error is
logged and the method returns `None` (no exception); otherwise the model
predicts. `predictModel` stands for the opaque
`self._model.predict([(query, entities, entity_index)])[0]`; the returned
Bool reports whether the error was logged. -/
def rcPredict (predictModel : Model → RCExample → Option String)
    (st : RCState) (q : RCExample) : Option String × Bool :=
  match st.model with
  | none => (none, true)
  | some m => (predictModel m q, false)

/-- Modelled from the spec: `resource_loader.flatten_query_tree` — "flatten
a grouped query structure into a flat sequence". A grouped structure of raw
query texts flattens by concatenation. -/
def flatten_query_tree (tree : List (List String)) : List String :=
  tree.flatMap id

/-- `RoleClassifier._get_queries_and_labels_hash` (lines 245-249): flatten
the raw query tree, sort it in place (`queries.sort()`), and hash the
sorted list. `hash_queries` stands for the resource loader's canonical
digest of a flat query sequence (not under src/, modelled from the spec as
an arbitrary function of the sorted list). -/
def getQueriesAndLabelsHash (hash_queries : List String → String)
    (tree : List (List String)) : String :=
  hash_queries (List.insertionSort (fun a b => a ≤ b) (flatten_query_tree tree))

/-- Modelled from the spec: `Classifier._get_model_hash` (base class, not
under src/) combines the resolved configuration's digest with the training
queries' digest into the training fingerprint. -/
def get_model_hash (combine : String → String → String) (config_digest : String)
    (hash_queries : List String → String) (tree : List (List String)) : String :=
  combine config_digest (getQueriesAndLabelsHash hash_queries tree)

/-! ### Supporting lemmas about the role classifier -/

/-- Every collected (example, label) pair carries a truthy role: the
eligibility filter of line 229 requires it. -/
theorem collectExamples_truthy (entityType : String) (qs : List PQuery) :
    ∀ pr ∈ collectExamples entityType qs, roleTruthy pr.2 = true := by
  intro pr hpr
  rw [collectExamples, List.mem_flatMap] at hpr
  obtain ⟨q, hq, hpr⟩ := hpr
  rw [List.mem_filterMap] at hpr
  obtain ⟨p, hp, hif⟩ := hpr
  by_cases hc : (p.2.type == entityType && roleTruthy p.2.role) = true
  · rw [if_pos hc] at hif
    cases hif
    simp only [Bool.and_eq_true] at hc
    exact hc.2
  · rw [if_neg hc] at hif
    exact absurd hif (by simp)

/-- `None` can never appear among the labels: the eligibility filter already
dropped every entity whose role is `None` (or empty). -/
theorem none_notMem_labels (entityType : String) (qs : List PQuery) :
    ¬ none ∈ (collectExamples entityType qs).map (fun p => p.2) := by
  intro h
  rw [List.mem_map] at h
  obtain ⟨pr, hpr, h2⟩ := h
  have ht := collectExamples_truthy entityType qs pr hpr
  rw [h2] at ht
  exact absurd ht (by simp [roleTruthy])

theorem dedup_length_one {α : Type} [DecidableEq α] (l : List α) (a : α)
    (h1 : l ≠ []) (h2 : ∀ x ∈ l, x = a) : l.dedup.length = 1 := by
  have hnodup := l.nodup_dedup
  have hmem : ∀ x ∈ l.dedup, x = a := fun x hx => h2 x (List.mem_dedup.mp hx)
  have hne : l.dedup ≠ [] := fun hc => h1 ((List.dedup_eq_nil l).mp hc)
  rcases hdd : l.dedup with _ | ⟨x, rest⟩
  · exact absurd hdd hne
  · rcases rest with _ | ⟨y, rest2⟩
    · rfl
    · exfalso
      have hx := hmem x (by rw [hdd]; exact List.mem_cons_self _ _)
      have hy := hmem y (by rw [hdd]; exact List.mem_cons_of_mem _ (List.mem_cons_self _ _))
      rw [hdd, List.nodup_cons] at hnodup
      apply hnodup.1
      rw [show x = y from by rw [hx, hy]]
      exact List.mem_cons_self _ _

/-- When all eligible examples carry one single label value, the label set
collapses and `_get_queries_and_labels` returns `((), ())` (lines 233-236). -/
theorem gql_single_label (entityType : String) (qs : List PQuery) (r : Option String)
    (hne : collectExamples entityType qs ≠ [])
    (hall : ∀ pr ∈ collectExamples entityType qs, pr.2 = r) :
    getQueriesAndLabels entityType qs = .ok ([], []) := by
  unfold getQueriesAndLabels
  have h1 : (collectExamples entityType qs).map (fun p => p.2) ≠ [] := by
    intro hc
    exact hne (List.map_eq_nil_iff.mp hc)
  have h2 : ∀ x ∈ (collectExamples entityType qs).map (fun p => p.2), x = r := by
    intro x hx
    rw [List.mem_map] at hx
    obtain ⟨pr, hpr, hx⟩ := hx
    rw [← hx]
    exact hall pr hpr
  rw [if_pos (dedup_length_one _ r h1 h2)]

/-- The `ValueError` branch of `_get_queries_and_labels` (lines 237-241) is
unreachable: its guard `None in unique_labels` can never hold. -/
theorem gql_never_error (entityType : String) (qs : List PQuery) :
    ∀ e, getQueriesAndLabels entityType qs ≠ .error e := by
  intro e
  unfold getQueriesAndLabels
  by_cases h1 : ((collectExamples entityType qs).map (fun p => p.2)).dedup.length = 1
  · simp [h1]
  · have h2 := none_notMem_labels entityType qs
    simp [h1, h2]

/-! ## Claims about the Embedder -/

/-- C8: `get_encodings` returns one vector per input in input order; a
cached text takes its value from the cache and never appears in any batch
handed to `encode`; a miss takes the freshly encoded value; the single
`encode` batch is the misses in their original relative order. -/
theorem C8_order_and_hits (enc : String → Vec) (c : Cache) (ts : List String) :
    (getEncodings enc c ts).result.length = ts.length ∧
    (getEncodings enc c ts).calls = [missTexts c ts] ∧
    (∀ i, i < ts.length → ∀ t, ts[i]? = some t →
      (∀ v, cacheGet c t = some v →
        (getEncodings enc c ts).result[i]? = some (some v) ∧
        ∀ b ∈ (getEncodings enc c ts).calls, ¬ t ∈ b) ∧
      (cacheGet c t = none →
        (getEncodings enc c ts).result[i]? = some (some (enc t)))) := by
  refine ⟨?_, getEncodings_calls enc c ts, ?_⟩
  · rw [getEncodings_result, List.length_map]
  · intro i hi t ht
    constructor
    · intro v hv
      constructor
      · rw [getEncodings_result, List.getElem?_map, ht]
        simp [hv]
      · intro b hb
        rw [getEncodings_calls] at hb
        have hb2 := List.mem_singleton.mp hb
        subst hb2
        intro htb
        rw [missTexts, List.mem_filter] at htb
        simp [hv] at htb
    · intro hmiss
      rw [getEncodings_result, List.getElem?_map, ht]
      simp [hmiss]

/-- C5 (amended): a second `get_encodings` call on the same list returns
identical vectors, and its single `encode` invocation carries an empty
batch — zero texts are freshly encoded, but `encode` is still invoked once. -/
theorem C5_second_call (enc : String → Vec) (c : Cache) (ts : List String) :
    (getEncodings enc (getEncodings enc c ts).cache ts).result =
      (getEncodings enc c ts).result ∧
    (getEncodings enc (getEncodings enc c ts).cache ts).calls = [[]] := by
  constructor
  · rw [getEncodings_result, getEncodings_result]
    apply List.map_congr_left
    intro t ht
    rw [cacheGet_after_mem enc c ts t ht, Option.getD_some]
  · rw [getEncodings_calls]
    have h : missTexts (getEncodings enc c ts).cache ts = [] := by
      rw [missTexts, List.filter_eq_nil_iff]
      intro t ht
      rw [cacheGet_after_mem enc c ts t ht]
      simp
    rw [h]

/-- C5 counterexample: immediately repeating `get_encodings ["a"]` from an
empty cache, the second call still invokes `encode` (once, on an empty
batch) — not zero encode invocations. -/
theorem C5_counterexample :
    (getEncodings (fun _ => ([1] : Vec))
        ((getEncodings (fun _ => ([1] : Vec)) [] ["a"]).cache) ["a"]).calls = [[]] ∧
    ([[]] : List (List String)) ≠ [] := by
  refine ⟨rfl, by simp⟩

/-- C4 (amended): when the text list is empty or every entry is a cache
hit, `get_encodings` still invokes `encode` exactly once, with an empty
(zero-item) batch; no text is freshly encoded. -/
theorem C4_all_hits_empty_batch (enc : String → Vec) (c : Cache) (ts : List String)
    (h : ∀ t ∈ ts, (cacheGet c t).isSome) :
    (getEncodings enc c ts).calls = [[]] := by
  rw [getEncodings_calls]
  have hm : missTexts c ts = [] := by
    rw [missTexts, List.filter_eq_nil_iff]
    intro t ht
    obtain ⟨v, hv⟩ := Option.isSome_iff_exists.mp (h t ht)
    simp [hv]
  rw [hm]

theorem C4_witness :
    (getEncodings (fun _ => ([] : Vec)) [("a", ([7] : Vec))] ["a"]).calls = [[]] :=
  C4_all_hits_empty_batch _ _ _ (by decide)

/-- C4 counterexample: on the empty text list, `encode` is invoked (once,
with zero items) — the claim says it must not be invoked at all. -/
theorem C4_counterexample :
    (getEncodings (fun _ => ([] : Vec)) ([] : Cache) ([] : List String)).calls = [[]] ∧
    ([[]] : List (List String)) ≠ [] :=
  ⟨rfl, by simp⟩

/-- C3 (amended): `clear_cache` deletes the backing file but leaves the
in-memory cache intact; the embedder stays usable, and `get_encodings` on a
previously-cached string returns the cached vector with zero fresh encodes
of that string (its one `encode` invocation carries an empty batch). -/
theorem C3_clear_cache (enc : String → Vec) (s : EmbState) (t : String) (v : Vec)
    (h : cacheGet s.mem t = some v) :
    (clear_cache s).file = none ∧
    (clear_cache s).mem = s.mem ∧
    (embGetEncodings enc (clear_cache s) [t]).1 = [some v] ∧
    (embGetEncodings enc (clear_cache s) [t]).2.2 = [[]] := by
  refine ⟨rfl, rfl, ?_, ?_⟩
  · show (getEncodings enc s.mem [t]).result = [some v]
    rw [getEncodings_result]
    simp [h]
  · show (getEncodings enc s.mem [t]).calls = [[]]
    rw [getEncodings_calls]
    have hm : missTexts s.mem [t] = [] := by
      rw [missTexts]
      simp [h]
    rw [hm]

theorem C3_witness :
    (clear_cache ⟨[("a", [7])], some [("a", [7])]⟩).file = none ∧
    (clear_cache ⟨[("a", [7])], some [("a", [7])]⟩).mem =
      (⟨[("a", [7])], some [("a", [7])]⟩ : EmbState).mem ∧
    (embGetEncodings (fun _ => [9]) (clear_cache ⟨[("a", [7])], some [("a", [7])]⟩)
        ["a"]).1 = [some [7]] ∧
    (embGetEncodings (fun _ => [9]) (clear_cache ⟨[("a", [7])], some [("a", [7])]⟩)
        ["a"]).2.2 = [[]] :=
  C3_clear_cache (fun _ => [9]) ⟨[("a", [7])], some [("a", [7])]⟩ "a" [7] rfl

/-- C3 counterexample: with "a" cached as [7] (and the fresh encoder
returning [9]), after `clear_cache` the in-memory cache still holds "a",
and `get_encodings ["a"]` returns the stale cached [7] with an empty encode
batch — no fresh encode call for "a" is made. -/
theorem C3_counterexample :
    (clear_cache ⟨[("a", [7])], some [("a", [7])]⟩).mem = [("a", [7])] ∧
    (embGetEncodings (fun _ => [9]) (clear_cache ⟨[("a", [7])], some [("a", [7])]⟩)
        ["a"]).1 = [some [7]] ∧
    (embGetEncodings (fun _ => [9]) (clear_cache ⟨[("a", [7])], some [("a", [7])]⟩)
        ["a"]).2.2 = [[]] :=
  ⟨rfl, rfl, rfl⟩

/-- C9 (amended): construction yields a fresh empty cache without reading
when the file is missing or zero-size; a non-empty file that cannot be
deserialized raises; a non-empty file that deserializes installs its full
stored content (which may itself be the empty mapping). -/
theorem C9_init_cases :
    initCache CacheFile.absent = Except.ok [] ∧
    (∀ c : Cache, initCache (CacheFile.present 0 c) = Except.ok []) ∧
    (∀ n : Nat, n ≠ 0 →
      initCache (CacheFile.present n none) = Except.error "UnpicklingError") ∧
    (∀ (n : Nat) (c : Cache), n ≠ 0 →
      initCache (CacheFile.present n (some c)) = Except.ok c) := by
  refine ⟨rfl, fun c => rfl, fun n hn => ?_, fun n c hn => ?_⟩
  · simp [initCache, hn]
  · simp [initCache, hn]

/-- C9 counterexample: a present, non-empty (5-byte) file whose stored
mapping is empty — exactly what `dump` of an empty cache produces — makes
construction succeed with an empty cache, so "empty cache only if the file
is missing or empty" fails. -/
theorem C9_counterexample :
    initCache (CacheFile.present 5 (some [])) = Except.ok [] ∧ (5 : Nat) ≠ 0 :=
  ⟨rfl, by decide⟩

/-! ## Claims about the RoleClassifier -/

def sampleEntities : List Entity := [⟨"et", some "r1"⟩, ⟨"et", some "r2"⟩]

def sampleQs : List PQuery := [⟨"q", sampleEntities⟩]

def sampleExamples : List RCExample :=
  [("q", sampleEntities, 0), ("q", sampleEntities, 1)]

def sampleLabels : List (Option String) := [some "r1", some "r2"]

def sampleFS : FS :=
  ⟨[("m", ⟨some ⟨[], [some "x"]⟩, [some "x"]⟩)], [("m" ++ ".hash", "H1")]⟩

def sampleSt : RCState := ⟨[], none, none, false, false⟩

theorem sample_gql :
    getQueriesAndLabels "et" sampleQs = .ok (sampleExamples, sampleLabels) := by
  rfl

/-- C1: with a previous model path, a stored fingerprint equal to the fresh
one makes fit load the prior artifact and never reach `model.fit`; a
differing stored fingerprint makes fit proceed (with valid multi-label
data, `model.fit` runs), sets the classifier's hash to the new fingerprint,
and a subsequent dump at that path stores the new fingerprint in the
`.hash` record, replacing the old one. -/
theorem C1_reuse_gate (new_hash : String) (fs : FS) (st : RCState)
    (entityType : String) (qs : List PQuery) (p : String) :
    (load_hash fs p = some new_hash →
      rcFit new_hash fs st entityType qs (some p) = .ok (rcLoad fs st p, false)) ∧
    (∀ old_hash, load_hash fs p = some old_hash → old_hash ≠ new_hash →
      ∀ examples labels,
        getQueriesAndLabels entityType qs = .ok (examples, labels) →
        examples ≠ [] →
        rcFit new_hash fs st entityType qs (some p) =
          .ok (fitState st new_hash examples labels, true) ∧
        (fitState st new_hash examples labels).hash = some new_hash ∧
        (rcDump (fitState st new_hash examples labels) p fs).2.hashes.lookup
          (p ++ ".hash") = some new_hash) := by
  constructor
  · intro h
    simp [rcFit, h]
  · intro old_hash hold hne examples labels hgql hex
    have hcond : ¬ (load_hash fs p = some new_hash) := by
      rw [hold]
      intro hc
      exact hne (Option.some.inj hc)
    have hemp : examples.isEmpty = false := by
      cases examples with
      | nil => exact absurd rfl hex
      | cons a l => rfl
    refine ⟨?_, rfl, ?_⟩
    · simp [rcFit, hcond, hgql, hemp]
    · simp [rcDump, fitState, lookup_alistPut]

theorem C1_witness :
    (rcFit "H1" sampleFS sampleSt "et" sampleQs (some "m") =
      .ok (rcLoad sampleFS sampleSt "m", false)) ∧
    (rcFit "H2" sampleFS sampleSt "et" sampleQs (some "m") =
      .ok (fitState sampleSt "H2" sampleExamples sampleLabels, true) ∧
    (fitState sampleSt "H2" sampleExamples sampleLabels).hash = some "H2" ∧
    (rcDump (fitState sampleSt "H2" sampleExamples sampleLabels) "m"
        sampleFS).2.hashes.lookup ("m" ++ ".hash") = some "H2") :=
  ⟨(C1_reuse_gate "H1" sampleFS sampleSt "et" sampleQs "m").1 rfl,
   (C1_reuse_gate "H2" sampleFS sampleSt "et" sampleQs "m").2 "H1" rfl
     (by decide) sampleExamples sampleLabels sample_gql (by decide)⟩

/-- C2: on a training set whose entities of the classifier's type carry the
roles None, "r1" and "r2", `_get_queries_and_labels` silently drops the
None-role entity and returns the remaining two examples — no error is
raised; in fact its `ValueError` branch is unreachable for every input,
because the eligibility filter of line 229 already removed every
entity whose role is unset. -/
theorem C2_annotation_dropped :
    getQueriesAndLabels "et"
        [⟨"q", [⟨"et", none⟩, ⟨"et", some "r1"⟩, ⟨"et", some "r2"⟩]⟩] =
      .ok ([("q", [⟨"et", none⟩, ⟨"et", some "r1"⟩, ⟨"et", some "r2"⟩], 1),
            ("q", [⟨"et", none⟩, ⟨"et", some "r1"⟩, ⟨"et", some "r2"⟩], 2)],
           [some "r1", some "r2"]) ∧
    (∀ (entityType : String) (qs : List PQuery) (e : List String),
      getQueriesAndLabels entityType qs ≠ .error e) :=
  ⟨rfl, fun entityType qs e => gql_never_error entityType qs e⟩

/-- C6: the training fingerprint does not depend on the grouping or
iteration order of the queries: any two trees whose flattened raw queries
are permutations of each other hash identically, for every configuration
digest and every canonical query-hash function, because the flattened list
is sorted before hashing. -/
theorem C6_fingerprint_order_free (combine : String → String → String)
    (config_digest : String) (hash_queries : List String → String)
    (t1 t2 : List (List String))
    (h : (flatten_query_tree t1).Perm (flatten_query_tree t2)) :
    get_model_hash combine config_digest hash_queries t1 =
      get_model_hash combine config_digest hash_queries t2 := by
  unfold get_model_hash getQueriesAndLabelsHash
  congr 1
  congr 1
  apply List.eq_of_perm_of_sorted (r := fun a b : String => a ≤ b)
  · exact (List.perm_insertionSort _ _).trans
      (h.trans (List.perm_insertionSort _ _).symm)
  · exact List.sorted_insertionSort _ _
  · exact List.sorted_insertionSort _ _

theorem C6_witness :
    get_model_hash (fun a b => a ++ b) "cfg" (String.intercalate ",")
        [["b"], ["a"]] =
      get_model_hash (fun a b => a ++ b) "cfg" (String.intercalate ",")
        [["a", "b"]] :=
  C6_fingerprint_order_free _ _ _ _ _ (by decide)

/-- C7: when every eligible example carries one single label value, fit
returns without invoking `model.fit`, leaves the model unset (untrained)
and marks the classifier ready — no error. -/
theorem C7_single_label (new_hash : String) (fs : FS) (st : RCState)
    (entityType : String) (qs : List PQuery) (r : Option String)
    (hmodel : st.model = none)
    (hne : collectExamples entityType qs ≠ [])
    (hall : ∀ pr ∈ collectExamples entityType qs, pr.2 = r) :
    rcFit new_hash fs st entityType qs none =
      .ok ({ st with hash := some new_hash, ready := true, dirty := true }, false) ∧
    ({ st with hash := some new_hash, ready := true, dirty := true } : RCState).model
      = none ∧
    ({ st with hash := some new_hash, ready := true, dirty := true } : RCState).ready
      = true := by
  have hgql := gql_single_label entityType qs r hne hall
  refine ⟨?_, ?_, rfl⟩
  · simp [rcFit, hgql]
  · show st.model = none
    exact hmodel

theorem C7_witness :
    rcFit "H" sampleFS sampleSt "et"
        [⟨"q", [⟨"et", some "r"⟩, ⟨"et", some "r"⟩]⟩] none =
      .ok ({ sampleSt with hash := some "H", ready := true, dirty := true }, false) ∧
    ({ sampleSt with hash := some "H", ready := true, dirty := true } : RCState).model
      = none ∧
    ({ sampleSt with hash := some "H", ready := true, dirty := true } : RCState).ready
      = true :=
  C7_single_label "H" sampleFS sampleSt "et"
    [⟨"q", [⟨"et", some "r"⟩, ⟨"et", some "r"⟩]⟩] (some "r") rfl
    (by decide) (by decide)

/-- C10: whenever the internal model is unset, predict logs an error and
returns no result, without raising; in particular after a single-label
short-circuit fit the classifier is ready yet predict still yields nothing,
so ready does not imply predict returns a role. -/
theorem C10_predict_unset (predictModel : Model → RCExample → Option String) :
    (∀ (st : RCState) (q : RCExample), st.model = none →
      rcPredict predictModel st q = (none, true)) ∧
    (∀ (new_hash : String) (fs : FS) (st : RCState) (entityType : String)
        (qs : List PQuery) (r : Option String) (q : RCExample),
      st.model = none →
      collectExamples entityType qs ≠ [] →
      (∀ pr ∈ collectExamples entityType qs, pr.2 = r) →
      ∀ st' b, rcFit new_hash fs st entityType qs none = .ok (st', b) →
        st'.ready = true ∧ rcPredict predictModel st' q = (none, true)) := by
  constructor
  · intro st q h
    simp [rcPredict, h]
  · intro new_hash fs st entityType qs r q hmodel hne hall st' b hfit
    have hgql := gql_single_label entityType qs r hne hall
    have heq : rcFit new_hash fs st entityType qs none =
        .ok ({ st with hash := some new_hash, ready := true, dirty := true }, false) := by
      simp [rcFit, hgql]
    rw [heq] at hfit
    have hpair := Except.ok.inj hfit
    have hst : st' = { st with hash := some new_hash, ready := true, dirty := true } :=
      (congrArg Prod.fst hpair).symm
    have hready : st'.ready = true := by rw [hst]
    have hm : st'.model = none := by rw [hst]; exact hmodel
    exact ⟨hready, by simp [rcPredict, hm]⟩
